import Mathlib

/-!
Verification of the octopus probabilistic inference core and its helper
modules against their sources.  Doubles are idealised as real numbers; a
decimal literal in the source denotes the real number it approximates.
Fallible operations (cache misses, out-of-range table lookups) are modelled
with `Option`.
-/

namespace Octopus

/-- Modelled from the spec: a haplotype handle is an opaque identifier with
equality and hashing; its content is owned elsewhere (spec §3).  The
`Haplotype` class itself is declared in headers that are not among the
sources. -/
abbrev Haplotype := ℕ

/-- Modelled from the spec: the per-(sample, haplotype) vector of per-read
log-likelihoods, one `f64` per read of the sample (spec §3). -/
abbrev LikelihoodVector := List ℝ

/-- Modelled from the spec: a primed `HaplotypeLikelihoodCache` restricted to
the current sample maps a haplotype handle to its per-read log-likelihood
vector; querying an absent handle is the `UnknownHaplotype` failure, modelled
as `none` (spec §4.2).  The class is declared outside the sources. -/
def HaplotypeLikelihoodCache := Haplotype → Option LikelihoodVector

/-- Modelled from the spec: a genotype is a multiset of `ploidy` haplotype
handles kept in canonical (sorted) order; `genotype[i]` reads the i-th handle
of that order (spec §3).  The `Genotype` class is declared outside the
sources. -/
abbrev Genotype := List Haplotype

/-- Modelled from the spec: `copy_unique_ref()` lists the distinct handles of
a genotype in order of first appearance, which for a canonically ordered
genotype is the sorted list of distinct handles (spec §3, `unique()`). -/
def unique : Genotype → List Haplotype
  | [] => []
  | a :: t => a :: unique (t.filter (fun x => x != a))
termination_by g => g.length
decreasing_by
  simp only [List.length_cons]
  exact Nat.lt_succ_of_le (List.length_filter_le _ t)

/-- Modelled from the spec: `zygosity()` is the number of distinct handles
(spec §3). -/
def zygosity (g : Genotype) : ℕ := (unique g).length

/-- Modelled from the spec: `is_homozygous() ⇔ zygosity() == 1` (spec §3). -/
def is_homozygous (g : Genotype) : Bool := zygosity g == 1

/- Real-valued definitions: exact real arithmetic has no executable code in
Lean, so this section is noncomputable; kernel reduction (used by the
witnesses) is unaffected. -/
noncomputable section

/-- Modelled from the spec: `log_sum_exp(a, b)` returns `ln(exp a + exp b)`
(spec §4.1).  The max-shift performed by the implementation for
floating-point stability is the identity in exact real arithmetic. -/
def log_sum_exp (a b : ℝ) : ℝ := Real.log (Real.exp a + Real.exp b)

/-- Modelled from the spec: the three-argument `log_sum_exp` specialisation
(spec §4.1). -/
def log_sum_exp3 (a b c : ℝ) : ℝ := Real.log (Real.exp a + Real.exp b + Real.exp c)

/-- Modelled from the spec: the k-ary `log_sum_exp` over a buffer
(spec §4.1). -/
def log_sum_exp_list (l : List ℝ) : ℝ := Real.log (l.map Real.exp).sum

/-- The compile-time table `lnLookup` of `germline_likelihood_model.cpp`
(lines 53-65): entry 0 is `+∞`; entry `n` for `n ∈ [1, 10]` is `ln n` written
as a 57-decimal-digit double literal, idealised here as the exact real number
`Real.log n` that the literal denotes. -/
def lnLookup : List EReal :=
  [⊤,
   ((Real.log 1 : ℝ) : EReal),
   ((Real.log 2 : ℝ) : EReal),
   ((Real.log 3 : ℝ) : EReal),
   ((Real.log 4 : ℝ) : EReal),
   ((Real.log 5 : ℝ) : EReal),
   ((Real.log 6 : ℝ) : EReal),
   ((Real.log 7 : ℝ) : EReal),
   ((Real.log 8 : ℝ) : EReal),
   ((Real.log 9 : ℝ) : EReal),
   ((Real.log 10 : ℝ) : EReal)]

/-- The helper `ln<>(n)` of `germline_likelihood_model.cpp` (lines 50-67):
`lnLookup[n]` through `std::array::operator[]`, whose index is unchecked; an
out-of-range access is undefined behaviour, modelled as `none`. -/
def lnTable (n : ℕ) : Option EReal := lnLookup.get? n

/-- The finite portion of the `ln<>` table as real numbers: defined exactly on
indices 1..10, where the table holds finite doubles, and `none` outside the
table (out-of-bounds access).  The evaluation paths below only invoke `ln<>`
with arguments ≥ 2; `lnReal_agrees` links the two views. -/
def lnReal (n : ℕ) : Option ℝ :=
  if 1 ≤ n ∧ n ≤ 10 then some (Real.log n) else none

/-- `GermlineLikelihoodModel::evaluate_haploid` (lines 71-75): the sum of the
log-likelihood vector of the only haplotype. -/
def evaluate_haploid (cache : HaplotypeLikelihoodCache) (g : Genotype) : Option ℝ :=
  (cache (g.getD 0 0)).map List.sum

/-- `GermlineLikelihoodModel::evaluate_diploid` (lines 77-89): the homozygous
case sums the single vector; the heterozygous case accumulates
`log_sum_exp(L1[r], L2[r]) - ln<>(2)` over the reads. -/
def evaluate_diploid (cache : HaplotypeLikelihoodCache) (g : Genotype) : Option ℝ :=
  match cache (g.getD 0 0) with
  | none => none
  | some L1 =>
    if is_homozygous g then some L1.sum
    else
      match cache (g.getD 1 0) with
      | none => none
      | some L2 =>
        some (∑ r in Finset.range L1.length,
          (log_sum_exp (L1.getD r 0) (L2.getD r 0) - Real.log 2))

/-- `GermlineLikelihoodModel::evaluate_triploid` (lines 91-123): homozygous,
zygosity-3, and the two symmetric zygosity-2 branches selected by
`genotype[0] != genotype[1]`. -/
def evaluate_triploid (cache : HaplotypeLikelihoodCache) (g : Genotype) : Option ℝ :=
  match cache (g.getD 0 0) with
  | none => none
  | some L1 =>
    if is_homozygous g then some L1.sum
    else if zygosity g = 3 then
      match cache (g.getD 1 0), cache (g.getD 2 0) with
      | some L2, some L3 =>
        some (∑ r in Finset.range L1.length,
          (log_sum_exp3 (L1.getD r 0) (L2.getD r 0) (L3.getD r 0) - Real.log 3))
      | _, _ => none
    else if g.getD 0 0 != g.getD 1 0 then
      match cache (g.getD 1 0) with
      | none => none
      | some L2 =>
        some (∑ r in Finset.range L1.length,
          (log_sum_exp (L1.getD r 0) (Real.log 2 + L2.getD r 0) - Real.log 3))
    else
      match cache (g.getD 2 0) with
      | none => none
      | some L3 =>
        some (∑ r in Finset.range L1.length,
          (log_sum_exp (Real.log 2 + L1.getD r 0) (L3.getD r 0) - Real.log 3))

/-- `GermlineLikelihoodModel::evaluate_tetraploid` (lines 125-147): only the
zygosity-1 and zygosity-4 branches are implemented; the `TODO` branch for
zygosity 2 and 3 returns 0.  `evaluate` never calls this function (the call
is commented out in the dispatch). -/
def evaluate_tetraploid (cache : HaplotypeLikelihoodCache) (g : Genotype) : Option ℝ :=
  match cache (g.getD 0 0) with
  | none => none
  | some L1 =>
    if zygosity g = 1 then some L1.sum
    else if zygosity g = 4 then
      match cache (g.getD 1 0), cache (g.getD 2 0), cache (g.getD 3 0) with
      | some L2, some L3, some L4 =>
        some (∑ r in Finset.range L1.length,
          (log_sum_exp_list
            [L1.getD r 0, L2.getD r 0, L3.getD r 0, L4.getD r 0] - Real.log 4))
      | _, _, _ => none
    else some 0

/-- The gathering loop of `evaluate_polyploid` (lines 177-184): one
likelihood-vector reference per genotype entry, duplicates included; a cache
miss on any handle is a failure. -/
def gatherLikelihoods (cache : HaplotypeLikelihoodCache) :
    List Haplotype → Option (List LikelihoodVector)
  | [] => some []
  | h :: t =>
    match cache h, gatherLikelihoods cache t with
    | some L, some Ls => some (L :: Ls)
    | _, _ => none

/-- `GermlineLikelihoodModel::evaluate_polyploid` (lines 149-199): zygosity 1
sums the front vector; zygosity 2 uses `std::log(ploidy - 1)` and
`ln<>(ploidy)` with the branch chosen by whether the front unique haplotype
has multiplicity 1; the general branch gathers all `ploidy` vectors and
accumulates the k-ary `log_sum_exp` minus `ln<>(ploidy)` over the read count
of the front vector. -/
def evaluate_polyploid (cache : HaplotypeLikelihoodCache) (g : Genotype) : Option ℝ :=
  match cache (g.getD 0 0) with
  | none => none
  | some L1 =>
    if zygosity g = 1 then some L1.sum
    else if zygosity g = 2 then
      let lnpm1 : ℝ := Real.log ((g.length - 1 : ℕ) : ℝ)
      match cache ((unique g).getLastD 0), lnReal g.length with
      | some L2, some lnp =>
        if g.count ((unique g).headD 0) = 1 then
          some (∑ r in Finset.range L1.length,
            (log_sum_exp (L1.getD r 0) (lnpm1 + L2.getD r 0) - lnp))
        else
          some (∑ r in Finset.range L1.length,
            (log_sum_exp (lnpm1 + L1.getD r 0) (L2.getD r 0) - lnp))
      | _, _ => none
    else
      match gatherLikelihoods cache g, lnReal g.length with
      | some Ls, some lnp =>
        some (∑ r in Finset.range (Ls.headD []).length,
          (log_sum_exp_list (Ls.map (fun L => L.getD r 0)) - lnp))
      | _, _ => none

/-- `GermlineLikelihoodModel::evaluate` (lines 25-44): dispatch on the ploidy;
the empty genotype scores 0; ploidy 4 falls through to `evaluate_polyploid`
(the `log_likelihood_tetraploid` call is commented out), as does every ploidy
above 4. -/
def evaluate (cache : HaplotypeLikelihoodCache) (g : Genotype) : Option ℝ :=
  match g.length with
  | 0 => some 0
  | 1 => evaluate_haploid cache g
  | 2 => evaluate_diploid cache g
  | 3 => evaluate_triploid cache g
  | 4 => evaluate_polyploid cache g
  | _ + 5 => evaluate_polyploid cache g

end

/-! ## sequence_utils.h -/

/-- The 128-entry complement table `detail::rc_table` of `sequence_utils.h`
(lines 101-110), holding the ASCII code of the complement of the character at
each index: `A/a ↦ T`, `C/c ↦ G`, `G/g ↦ C`, `T/t, U/u ↦ A`, `N ↦ N`
(upper case only), everything else `↦ 4`. -/
def rc_table : List ℕ :=
  [4, 4,  4, 4,  4,  4,  4, 4,  4, 4, 4, 4,  4, 4, 4,  4,
   4, 4,  4, 4,  4,  4,  4, 4,  4, 4, 4, 4,  4, 4, 4,  4,
   4, 4,  4, 4,  4,  4,  4, 4,  4, 4, 4, 4,  4, 4, 4,  4,
   4, 4,  4, 4,  4,  4,  4, 4,  4, 4, 4, 4,  4, 4, 4,  4,
   4, 84, 4, 71, 4,  4,  4, 67, 4, 4, 4, 4,  4, 4, 78, 4,
   4, 4,  4, 4,  65, 65, 4, 4,  4, 4, 4, 4,  4, 4, 4,  4,
   4, 84, 4, 71, 4,  4,  4, 67, 4, 4, 4, 4,  4, 4, 4,  4,
   4, 4,  4, 4,  65, 65, 4, 4,  4, 4, 4, 4,  4, 4, 4,  4]

/-- `complement` of `sequence_utils.h` (lines 113-116): index `rc_table` with
the character code. -/
def complement (base : Char) : Char :=
  Char.ofNat (rc_table.getD base.toNat 0)

/-- `reverse_complement` of `sequence_utils.h` (lines 118-135): the two-
pointer loop swaps the complemented end characters moving inwards and
complements the middle character of an odd-length sequence.  One step of the
loop is one unfolding here: emit the complemented last character, recurse on
the interior, append the complemented first character. -/
def reverse_complement : List Char → List Char
  | [] => []
  | [x] => [complement x]
  | x :: y :: t =>
    complement ((y :: t).getLast (by simp)) ::
      (reverse_complement ((y :: t).dropLast) ++ [complement x])
termination_by s => s.length
decreasing_by
  simp only [List.length_dropLast, List.length_cons, Nat.add_sub_cancel]
  omega

/-- Modelled from the spec: "does the sequence contain the base `'N'`?"
(spec §9).  The source `has_ns` (sequence_utils.h lines 33-37) passes the
char literal to `std::any_of` where a predicate is required and is
ill-formed; the spec fixes the intended semantics, embedded here. -/
def has_ns (sequence : List Char) : Bool :=
  sequence.any (fun c => c == 'N')

/-! ## external_variant_candidates.cpp -/

/-- A VCF record as consumed by `fetch_variants`: chromosome, position,
reference allele and the ALT alleles (the `VcfRecord` accessors used by the
source; the class itself lives outside the sources). -/
structure VcfRecord where
  chrom : String
  pos : ℕ
  ref : List Char
  alts : List (List Char)

/-- A variant as constructed by `fetch_variants`: chromosome, position,
reference and alternative sequences (`Variant` lives outside the sources). -/
structure Variant where
  chrom : String
  pos : ℕ
  ref : List Char
  alt : List Char
deriving DecidableEq, Repr

/-- The length of the common prefix of two sequences: the distance from the
start to the `std::mismatch` point used at lines 64-65 of
`external_variant_candidates.cpp` (four-iterator form, stopping at the first
difference or the end of either sequence). -/
def commonPrefixLength : List Char → List Char → ℕ
  | a :: at1, b :: bt =>
    if a = b then commonPrefixLength at1 bt + 1 else 0
  | _, _ => 0

/-- The per-ALT body of `fetch_variants` (lines 61-79): unequal-length
ref/alt pairs are left-trimmed past the mismatch point with the position
advanced by the trimmed length; equal-length pairs are emitted verbatim. -/
def convert_allele (chrom : String) (pos : ℕ) (ref alt : List Char) : Variant :=
  if ref.length ≠ alt.length then
    let p := commonPrefixLength ref alt
    ⟨chrom, pos + p, ref.drop p, alt.drop p⟩
  else
    ⟨chrom, pos, ref, alt⟩

/-- The record loop body of `fetch_variants` (lines 60-80): one variant per
ALT allele of the record, in order. -/
def fetch_variants_record (r : VcfRecord) : List Variant :=
  r.alts.map (fun alt => convert_allele r.chrom r.pos r.ref alt)

/-- The batch loop of `fetch_variants` (lines 49-84) over the records
fetched for the region. -/
def fetch_variants (records : List VcfRecord) : List Variant :=
  (records.map fetch_variants_record).flatten

/-! ## measure_factory.cpp -/

/-- The `UnknownMeasure` user error (lines 53-67): carries the offending
name; `do_where`, `do_why` and `do_help` produce the strings below. -/
structure UnknownMeasure where
  name : String
  whereStr : String
  why : String
  help : String
deriving DecidableEq, Repr

/-- A constructed measure, identified by the registry name it was built from
(`MeasureWrapper` and the concrete measure classes live outside the
sources). -/
abbrev Measure := String

/-- `make_measure` (lines 69-79) over the registry keys installed by `init`
(lines 17-51): a registered name constructs its measure, any other name
throws `UnknownMeasure` with `do_where() = "make_measure"`,
`do_why() = name + " is not a valid measure"` and
`do_help() = "See the documentation for valid measures"`.  The concrete
name strings (`name<T>()` per measure) live outside the sources, so the
registry key list is a parameter. -/
def make_measure (names : List String) (s : String) : Except UnknownMeasure Measure :=
  if s ∈ names then Except.ok s
  else Except.error
    ⟨s, "make_measure", s ++ " is not a valid measure",
     "See the documentation for valid measures"⟩

/-- `get_all_measure_names` (lines 81-88): the registry keys (duplicate
registrations collapse in the `unordered_map`) in sorted order.
`extract_sorted_keys` is modelled from the spec (map_utils.hpp is outside the
sources): it returns the map's keys sorted ascending. -/
def get_all_measure_names (names : List String) : List String :=
  (names.dedup).insertionSort (fun a b => a ≤ b)

/-! ## Concrete fixtures used by the witnesses -/

noncomputable section

/-- Cache for scenario S2 of the spec: two haplotypes 0 and 1 with vectors
`[ln 0.9, ln 0.1]` and `[ln 0.1, ln 0.9]`. -/
def s2cache : HaplotypeLikelihoodCache := fun h =>
  if h = 0 then some [Real.log 0.9, Real.log 0.1]
  else if h = 1 then some [Real.log 0.1, Real.log 0.9]
  else none

/-- Cache with a single haplotype 0 and vector `[1, 2]`. -/
def c2cache : HaplotypeLikelihoodCache := fun h =>
  if h = 0 then some [1, 2] else none

/-- Cache for scenario S4 of the spec: haplotype 0 with `[ln 0.8]` and
haplotype 1 with `[ln 0.2]`. -/
def s4cache : HaplotypeLikelihoodCache := fun h =>
  if h = 0 then some [Real.log 0.8]
  else if h = 1 then some [Real.log 0.2]
  else none

/-- Cache whose haplotypes 0..10 all carry the single-read vector `[0]`;
enough handles for an 11-ploid genotype of zygosity 2. -/
def wideCache : HaplotypeLikelihoodCache := fun h =>
  if h ≤ 10 then some [0] else none

end

/-- The left-trim scenario record of the spec: pos 100, REF "AT", ALT "A". -/
def recAT : VcfRecord := ⟨"1", 100, ['A', 'T'], [['A']]⟩

/-- The equal-length scenario record: pos 100, REF "ACGT", single ALT
"ACGG". -/
def recACGT : VcfRecord := ⟨"1", 100, ['A', 'C', 'G', 'T'], [['A', 'C', 'G', 'G']]⟩

/-! ## Helper lemmas -/

theorem unique_nil : unique [] = [] := by
  rw [unique]

theorem unique_cons (a : Haplotype) (t : List Haplotype) :
    unique (a :: t) = a :: unique (t.filter (fun x => x != a)) := by
  rw [unique]

theorem filter_bne_self_replicate (k : ℕ) (h : Haplotype) :
    (List.replicate k h).filter (fun x => x != h) = [] := by
  induction k with
  | zero => rfl
  | succ k ih => simp only [List.replicate_succ, List.filter_cons, bne_self_eq_false,
      Bool.false_eq_true, if_false, ih, ite_self]

theorem unique_replicate (k : ℕ) (h : Haplotype) (hk : 1 ≤ k) :
    unique (List.replicate k h) = [h] := by
  cases k with
  | zero => omega
  | succ k =>
    rw [List.replicate_succ, unique_cons, filter_bne_self_replicate, unique_nil]

theorem zygosity_replicate (k : ℕ) (h : Haplotype) (hk : 1 ≤ k) :
    zygosity (List.replicate k h) = 1 := by
  rw [zygosity, unique_replicate k h hk, List.length_singleton]

theorem mem_of_mem_unique {x : Haplotype} :
    ∀ {g : Genotype}, x ∈ unique g → x ∈ g := by
  intro g
  induction g using unique.induct with
  | case1 => simp [unique_nil]
  | case2 a t ih =>
    rw [unique_cons]
    intro hx
    rcases List.mem_cons.1 hx with rfl | hx
    · exact List.mem_cons_self _ _
    · exact List.mem_cons_of_mem _ (List.mem_of_mem_filter (ih hx))

theorem unique_ne_nil {g : Genotype} (h : g ≠ []) : unique g ≠ [] := by
  obtain ⟨a, t, rfl⟩ := List.exists_cons_of_ne_nil h
  rw [unique_cons]
  exact List.cons_ne_nil _ _

theorem getLastD_mem {l : List Haplotype} (h : l ≠ []) (d : Haplotype) :
    l.getLast?.getD d ∈ l := by
  rw [List.getLast?_eq_getLast l h]
  exact List.getLast_mem h

theorem gatherLikelihoods_isSome (cache : HaplotypeLikelihoodCache)
    (g : Genotype) (hc : ∀ h ∈ g, ∃ L, cache h = some L) :
    ∃ Ls, gatherLikelihoods cache g = some Ls := by
  induction g with
  | nil => exact ⟨[], rfl⟩
  | cons a t ih =>
    obtain ⟨L, hL⟩ := hc a (List.mem_cons_self _ _)
    obtain ⟨Ls, hLs⟩ := ih (fun h hh => hc h (List.mem_cons_of_mem _ hh))
    exact ⟨L :: Ls, by simp [gatherLikelihoods, hL, hLs]⟩

/-- Sanity link between the two views of the `ln<>` table: on indices 1..10
they present the same finite value. -/
theorem lnReal_agrees (n : ℕ) (h1 : 1 ≤ n) (h10 : n ≤ 10) :
    lnTable n = (lnReal n).map (fun x => (x : EReal)) := by
  interval_cases n <;> simp [lnTable, lnLookup, lnReal]

/-! ## Claim C2 -/

/-- Claim C2: for every genotype made of k ≥ 1 copies of a single haplotype h
(zygosity 1) present in the primed cache with vector L, `evaluate` returns
exactly the sum of L over the reads — no log_sum_exp and no ln-ploidy
correction — for every ploidy k, including k > 4. -/
theorem evaluate_homozygous_reduction
    (cache : HaplotypeLikelihoodCache) (h : Haplotype) (L : LikelihoodVector)
    (k : ℕ) (hk : 1 ≤ k) (hc : cache h = some L) :
    evaluate cache (List.replicate k h) = some L.sum := by
  rcases k with _ | _ | _ | _ | _ | k
  · omega
  · show evaluate_haploid cache [h] = some L.sum
    simp [evaluate_haploid, hc]
  · show evaluate_diploid cache [h, h] = some L.sum
    have hz : zygosity [h, h] = 1 := zygosity_replicate 2 h (by omega)
    simp [evaluate_diploid, hc, is_homozygous, hz]
  · show evaluate_triploid cache [h, h, h] = some L.sum
    have hz : zygosity [h, h, h] = 1 := zygosity_replicate 3 h (by omega)
    simp [evaluate_triploid, hc, is_homozygous, hz]
  · show evaluate_polyploid cache [h, h, h, h] = some L.sum
    have hz : zygosity [h, h, h, h] = 1 := zygosity_replicate 4 h (by omega)
    simp [evaluate_polyploid, hc, hz]
  · show evaluate_polyploid cache (List.replicate (k + 5) h) = some L.sum
    have hz : zygosity (List.replicate (k + 5) h) = 1 :=
      zygosity_replicate (k + 5) h (by omega)
    simp [evaluate_polyploid, hc, hz]

/-- Witness for C2 at ploidy 5 (beyond the specialised dispatch). -/
theorem evaluate_homozygous_reduction_witness :
    evaluate c2cache (List.replicate 5 0) = some (([1, 2] : List ℝ).sum) :=
  evaluate_homozygous_reduction c2cache 0 [1, 2] 5 (by omega) rfl

/-! ## Claim C1 -/

theorem unique_pair {a b : Haplotype} (hab : a ≠ b) : unique [a, b] = [a, b] := by
  have hba : (b != a) = true := bne_iff_ne.mpr (Ne.symm hab)
  rw [unique_cons]
  simp [List.filter_cons, hba, unique_cons, unique_nil]

/-- Claim C1: for a diploid heterozygous genotype (h1, h2), h1 ≠ h2, with both
haplotypes in the primed cache carrying equal-length vectors L1 and L2,
`evaluate` returns the sum over read indices of
`log_sum_exp(L1[r], L2[r]) - ln 2`. -/
theorem evaluate_diploid_heterozygous
    (cache : HaplotypeLikelihoodCache) (h1 h2 : Haplotype)
    (L1 L2 : LikelihoodVector) (hne : h1 ≠ h2)
    (hc1 : cache h1 = some L1) (hc2 : cache h2 = some L2)
    (_hlen : L1.length = L2.length) :
    evaluate cache [h1, h2] =
      some (∑ r in Finset.range L1.length,
        (log_sum_exp (L1.getD r 0) (L2.getD r 0) - Real.log 2)) := by
  show evaluate_diploid cache [h1, h2] = _
  have hz : zygosity [h1, h2] = 2 := by
    rw [zygosity, unique_pair hne]
    rfl
  simp [evaluate_diploid, hc1, hc2, is_homozygous, hz]

/-- Witness for C1 at scenario S2: vectors `[ln 0.9, ln 0.1]` and
`[ln 0.1, ln 0.9]` give `2 · ln 0.5`. -/
theorem evaluate_diploid_heterozygous_witness :
    evaluate s2cache [0, 1] = some (2 * Real.log 0.5) := by
  have h := evaluate_diploid_heterozygous s2cache 0 1
      [Real.log 0.9, Real.log 0.1] [Real.log 0.1, Real.log 0.9]
      (by decide) rfl rfl rfl
  rw [h]
  rw [show ([Real.log 0.9, Real.log 0.1] : List ℝ).length = 2 from rfl]
  have e9 : Real.exp (Real.log 0.9) = 0.9 := Real.exp_log (by norm_num)
  have e1 : Real.exp (Real.log 0.1) = 0.1 := Real.exp_log (by norm_num)
  have hhalf : Real.log 0.5 = -Real.log 2 := by
    rw [show (0.5 : ℝ) = 2⁻¹ by norm_num, Real.log_inv]
  rw [Finset.sum_range_succ, Finset.sum_range_succ, Finset.sum_range_zero]
  simp only [List.getD_cons_zero, List.getD_cons_succ, log_sum_exp, e9, e1]
  rw [show (0.9 : ℝ) + 0.1 = 1 by norm_num, show (0.1 : ℝ) + 0.9 = 1 by norm_num,
    Real.log_one, hhalf]
  ring_nf

/-! ## Claim C3 -/

theorem unique_single_double {a b : Haplotype} (hab : a ≠ b) :
    unique [a, b, b] = [a, b] := by
  have hba : (b != a) = true := bne_iff_ne.mpr (Ne.symm hab)
  rw [unique_cons]
  simp [List.filter_cons, hba, unique_cons, unique_nil]

theorem unique_double_single {a b : Haplotype} (hab : a ≠ b) :
    unique [a, a, b] = [a, b] := by
  have hba : (b != a) = true := bne_iff_ne.mpr (Ne.symm hab)
  rw [unique_cons]
  simp [List.filter_cons, hba, unique_cons, unique_nil]

theorem log_sum_exp_comm (a b : ℝ) : log_sum_exp a b = log_sum_exp b a := by
  rw [log_sum_exp, log_sum_exp, add_comm]

/-- Claim C3: a triploid genotype of zygosity 2 — one haplotype doubled, one
single, both cached with equal-length vectors — evaluates to
`Σ_r (log_sum_exp(L_sgl[r], ln 2 + L_dbl[r]) - ln 3)`, and the two symmetric
branches selected by `genotype[0] != genotype[1]` produce this same value
regardless of which distinct handle is the single one. -/
theorem evaluate_triploid_zygosity_two
    (cache : HaplotypeLikelihoodCache) (sgl dbl : Haplotype)
    (Ls Ld : LikelihoodVector) (hne : sgl ≠ dbl)
    (hcs : cache sgl = some Ls) (hcd : cache dbl = some Ld)
    (hlen : Ls.length = Ld.length) :
    evaluate cache [sgl, dbl, dbl] =
      some (∑ r in Finset.range Ls.length,
        (log_sum_exp (Ls.getD r 0) (Real.log 2 + Ld.getD r 0) - Real.log 3)) ∧
    evaluate cache [dbl, dbl, sgl] =
      some (∑ r in Finset.range Ls.length,
        (log_sum_exp (Ls.getD r 0) (Real.log 2 + Ld.getD r 0) - Real.log 3)) := by
  have hsd : (sgl != dbl) = true := bne_iff_ne.mpr hne
  constructor
  · show evaluate_triploid cache [sgl, dbl, dbl] = _
    have hz : zygosity [sgl, dbl, dbl] = 2 := by
      rw [zygosity, unique_single_double hne]
      rfl
    simp [evaluate_triploid, hcs, hcd, is_homozygous, hz, hsd]
  · show evaluate_triploid cache [dbl, dbl, sgl] = _
    have hz : zygosity [dbl, dbl, sgl] = 2 := by
      rw [zygosity, unique_double_single (Ne.symm hne)]
      rfl
    rw [show evaluate_triploid cache [dbl, dbl, sgl] =
        some (∑ r in Finset.range Ld.length,
          (log_sum_exp (Real.log 2 + Ld.getD r 0) (Ls.getD r 0) - Real.log 3)) by
      simp [evaluate_triploid, hcs, hcd, is_homozygous, hz]]
    rw [← hlen]
    congr 1
    refine Finset.sum_congr rfl (fun r _ => ?_)
    rw [log_sum_exp_comm]

/-- Witness for C3 at scenario S4: `L_dbl = [ln 0.8]`, `L_sgl = [ln 0.2]`,
both orderings of the genotype. -/
theorem evaluate_triploid_zygosity_two_witness :
    evaluate s4cache [1, 0, 0] =
      some (∑ r in Finset.range 1,
        (log_sum_exp (([Real.log 0.2] : List ℝ).getD r 0)
          (Real.log 2 + ([Real.log 0.8] : List ℝ).getD r 0) - Real.log 3)) ∧
    evaluate s4cache [0, 0, 1] =
      some (∑ r in Finset.range 1,
        (log_sum_exp (([Real.log 0.2] : List ℝ).getD r 0)
          (Real.log 2 + ([Real.log 0.8] : List ℝ).getD r 0) - Real.log 3)) :=
  evaluate_triploid_zygosity_two s4cache 1 0 [Real.log 0.2] [Real.log 0.8]
    (by decide) rfl rfl rfl

/-! ## Claim C4 -/

theorem unique_triple {a b c : Haplotype} (hab : a ≠ b) (hac : a ≠ c)
    (hbc : b ≠ c) : unique [a, b, c] = [a, b, c] := by
  have hba : (b != a) = true := bne_iff_ne.mpr (Ne.symm hab)
  have hca : (c != a) = true := bne_iff_ne.mpr (Ne.symm hac)
  have hcb : (c != b) = true := bne_iff_ne.mpr (Ne.symm hbc)
  rw [unique_cons]
  simp [List.filter_cons, hba, hca, hcb, unique_cons, unique_nil]

theorem log_sum_exp_list_triple (x y z : ℝ) :
    log_sum_exp_list [x, y, z] = log_sum_exp3 x y z := by
  rw [log_sum_exp_list, log_sum_exp3]
  congr 1
  simp only [List.map_cons, List.map_nil, List.sum_cons, List.sum_nil]
  ring

theorem evaluate_polyploid_isSome (cache : HaplotypeLikelihoodCache)
    (g : Genotype) (hne : g ≠ []) (hhi : g.length ≤ 10)
    (hc : ∀ h ∈ g, ∃ L, cache h = some L) :
    ∃ v, evaluate_polyploid cache g = some v := by
  rw [← Option.isSome_iff_exists]
  obtain ⟨a, t, rfl⟩ := List.exists_cons_of_ne_nil hne
  obtain ⟨L1, hL1⟩ := hc a (List.mem_cons_self _ _)
  simp only [List.length_cons] at hhi
  have hln : lnReal (t.length + 1) = some (Real.log ((t.length + 1 : ℕ) : ℝ)) := by
    rw [lnReal, if_pos ⟨by omega, hhi⟩]
  by_cases hz2 : zygosity (a :: t) = 2
  · have hmem : (unique (a :: t)).getLast?.getD 0 ∈ a :: t :=
      mem_of_mem_unique (getLastD_mem (unique_ne_nil (List.cons_ne_nil a t)) 0)
    obtain ⟨L2, hL2⟩ := hc _ hmem
    simp [evaluate_polyploid, hL1, hz2, hL2, hln, apply_ite Option.isSome]
  · obtain ⟨Ls, hLs⟩ := gatherLikelihoods_isSome cache _ hc
    simp [evaluate_polyploid, hL1, hz2, hLs, hln, apply_ite Option.isSome]

/-- Claim C4: for every canonically ordered genotype of ploidy 2, 3 or 4
whose haplotypes all sit in the primed cache with equal-length vectors, the
ploidy-specialised path dispatched by `evaluate` and the general
`evaluate_polyploid` path return the same value (exact equality in real
arithmetic, hence within the 1e-9/1e-12 tolerance); in particular ploidy 4 —
zygosity 2 and 3 included — is dispatched to the polyploid formula and not to
the unfinished tetraploid branch that returns 0. -/
theorem evaluate_specialization_agreement
    (cache : HaplotypeLikelihoodCache) (g : Genotype) (n : ℕ)
    (hsort : g.Sorted (fun x y => x ≤ y)) (hlo : 2 ≤ g.length) (hhi : g.length ≤ 4)
    (hc : ∀ h ∈ g, ∃ L, cache h = some L ∧ L.length = n) :
    ∃ v, evaluate cache g = some v ∧ evaluate_polyploid cache g = some v := by
  rcases g with - | ⟨a, - | ⟨b, - | ⟨c, - | ⟨d, - | ⟨e, rest⟩⟩⟩⟩⟩
  · simp at hlo
  · simp at hlo
  · -- ploidy 2
    obtain ⟨La, hLa, -⟩ := hc a (by simp)
    obtain ⟨Lb, hLb, -⟩ := hc b (by simp)
    by_cases hab : a = b
    · subst hab
      have hz : zygosity [a, a] = 1 := zygosity_replicate 2 a (by omega)
      refine ⟨La.sum, ?_, ?_⟩
      · show evaluate_diploid cache [a, a] = _
        simp [evaluate_diploid, hLa, is_homozygous, hz]
      · simp [evaluate_polyploid, hLa, hz]
    · have hz : zygosity [a, b] = 2 := by
        rw [zygosity, unique_pair hab]
        rfl
      have hu := unique_pair hab
      have hab' : (a == b) = false := beq_eq_false_iff_ne.mpr hab
      have hln : lnReal 2 = some (Real.log 2) := by norm_num [lnReal]
      refine ⟨∑ r in Finset.range La.length,
        (log_sum_exp (La.getD r 0) (Lb.getD r 0) - Real.log 2), ?_, ?_⟩
      · show evaluate_diploid cache [a, b] = _
        simp [evaluate_diploid, hLa, hLb, is_homozygous, hz]
      · simp [evaluate_polyploid, hLa, hLb, hz, hu, hln, hab']
  · -- ploidy 3
    obtain ⟨hs1, hs2⟩ := List.sorted_cons.mp hsort
    obtain ⟨hs3, -⟩ := List.sorted_cons.mp hs2
    have hab : a ≤ b := hs1 b (by simp)
    have hbc : b ≤ c := hs3 c (by simp)
    obtain ⟨La, hLa, -⟩ := hc a (by simp)
    obtain ⟨Lb, hLb, -⟩ := hc b (by simp)
    obtain ⟨Lc, hLc, -⟩ := hc c (by simp)
    have hln : lnReal 3 = some (Real.log 3) := by norm_num [lnReal]
    by_cases heab : a = b
    · subst heab
      by_cases heac : a = c
      · subst heac
        have hz : zygosity [a, a, a] = 1 := zygosity_replicate 3 a (by omega)
        refine ⟨La.sum, ?_, ?_⟩
        · show evaluate_triploid cache [a, a, a] = _
          simp [evaluate_triploid, hLa, is_homozygous, hz]
        · simp [evaluate_polyploid, hLa, hz]
      · -- [a, a, c] : doubled handle first
        have hz : zygosity [a, a, c] = 2 := by
          rw [zygosity, unique_double_single heac]
          rfl
        have hu := unique_double_single heac
        have hac' : (a == c) = false := beq_eq_false_iff_ne.mpr heac
        refine ⟨∑ r in Finset.range La.length,
          (log_sum_exp (Real.log 2 + La.getD r 0) (Lc.getD r 0) - Real.log 3), ?_, ?_⟩
        · show evaluate_triploid cache [a, a, c] = _
          simp [evaluate_triploid, hLa, hLc, is_homozygous, hz]
        · simp [evaluate_polyploid, hLa, hLc, hz, hu, hln, hac']
    · by_cases hebc : b = c
      · subst hebc
        -- [a, b, b] : single handle first
        have hz : zygosity [a, b, b] = 2 := by
          rw [zygosity, unique_single_double heab]
          rfl
        have hu := unique_single_double heab
        have hab' : (a != b) = true := bne_iff_ne.mpr heab
        have hab'' : (a == b) = false := beq_eq_false_iff_ne.mpr heab
        have hba'' : (b == a) = false := beq_eq_false_iff_ne.mpr (Ne.symm heab)
        have hcount0 : List.count a [b, b] = 0 := by
          simp [List.count_cons, Ne.symm heab]
        refine ⟨∑ r in Finset.range La.length,
          (log_sum_exp (La.getD r 0) (Real.log 2 + Lb.getD r 0) - Real.log 3), ?_, ?_⟩
        · show evaluate_triploid cache [a, b, b] = _
          simp [evaluate_triploid, hLa, hLb, is_homozygous, hz, hab']
        · simp [evaluate_polyploid, hLa, hLb, hz, hu, hln, hab'', hba'', hcount0]
      · -- [a, b, c] all distinct
        have heac : a ≠ c := by
          intro e
          subst e
          exact heab (le_antisymm hab hbc)
        have hz : zygosity [a, b, c] = 3 := by
          rw [zygosity, unique_triple heab heac hebc]
          rfl
        have hgather : gatherLikelihoods cache [a, b, c] = some [La, Lb, Lc] := by
          simp [gatherLikelihoods, hLa, hLb, hLc]
        have hab' : (a != b) = true := bne_iff_ne.mpr heab
        refine ⟨∑ r in Finset.range La.length,
          (log_sum_exp3 (La.getD r 0) (Lb.getD r 0) (Lc.getD r 0) - Real.log 3), ?_, ?_⟩
        · show evaluate_triploid cache [a, b, c] = _
          simp [evaluate_triploid, hLa, hLb, hLc, is_homozygous, hz]
        · have hpoly : evaluate_polyploid cache [a, b, c] =
              some (∑ r in Finset.range La.length,
                (log_sum_exp_list [La.getD r 0, Lb.getD r 0, Lc.getD r 0] - Real.log 3)) := by
            simp [evaluate_polyploid, hLa, hz, hgather, hln]
          rw [hpoly]
          congr 1
          refine Finset.sum_congr rfl fun r _ => ?_
          rw [log_sum_exp_list_triple]
  · -- ploidy 4 : `evaluate` dispatches to the polyploid path itself
    obtain ⟨v, hv⟩ := evaluate_polyploid_isSome cache [a, b, c, d] (by simp)
      (by simp) (fun h hh => (hc h hh).imp fun L hL => hL.1)
    exact ⟨v, hv, hv⟩
  · -- ploidy ≥ 5 contradicts the bound
    simp [List.length_cons] at hhi

/-- Witness for C4: the tetraploid zygosity-2 genotype [0, 0, 1, 1] over
`wideCache` — the dispatch agrees with the polyploid path and is defined
(not the tetraploid TODO result). -/
theorem evaluate_specialization_agreement_witness :
    ∃ v, evaluate wideCache [0, 0, 1, 1] = some v ∧
      evaluate_polyploid wideCache [0, 0, 1, 1] = some v := by
  refine evaluate_specialization_agreement wideCache [0, 0, 1, 1] 1 ?_ (by simp) (by simp) ?_
  · simp [List.Sorted]
  · intro h hh
    simp at hh
    rcases hh with rfl | rfl <;> exact ⟨[0], rfl, rfl⟩

/-! ## Claim C5 -/

/-- Counterexample for C5: the `ln<>` helper does not fall back to the
platform `log` for arguments above 10 — index 11 reads past the 11-entry
table, which is undefined behaviour, and a zygosity-2 genotype of ploidy 11
drives `evaluate` into exactly that out-of-range lookup. -/
theorem ln_lookup_out_of_bounds_cex :
    lnTable 11 = none ∧
    evaluate wideCache [0, 0, 0, 0, 0, 0, 0, 0, 0, 0, 1] = none := by
  constructor
  · rfl
  · have hu : unique [0, 0, 0, 0, 0, 0, 0, 0, 0, 0, 1] = [0, 1] := by
      rw [unique_cons,
        show List.filter (fun x => x != 0) [0, 0, 0, 0, 0, 0, 0, 0, 0, 1] = [1] from rfl,
        unique_cons,
        show List.filter (fun x => x != 1) ([] : List Haplotype) = [] from rfl,
        unique_nil]
    have hz : zygosity [0, 0, 0, 0, 0, 0, 0, 0, 0, 0, 1] = 2 := by
      rw [zygosity, hu]
      rfl
    show evaluate_polyploid wideCache [0, 0, 0, 0, 0, 0, 0, 0, 0, 0, 1] = none
    simp [evaluate_polyploid, wideCache, hz, hu, lnReal]

/-- Claim C5 (amended): the `ln<>` lookup is defined exactly on the table
domain [0, 10]: index 0 holds `+∞`, indices 1..10 hold the tabulated `ln n`;
every index above 10 reads out of the 11-entry table and has no defined
value — there is no fallback to the platform `log`, so only zygosity-2
evaluations of ploidy at most 10 stay within the table. -/
theorem ln_lookup_domain :
    lnTable 0 = some ⊤ ∧
    (∀ n : ℕ, 1 ≤ n → n ≤ 10 → lnTable n = some ((Real.log n : ℝ) : EReal)) ∧
    (∀ n : ℕ, 10 < n → lnTable n = none) := by
  refine ⟨rfl, ?_, ?_⟩
  · intro n h1 h10
    interval_cases n <;> norm_num [lnTable, lnLookup]
  · intro n hn
    rw [lnTable]
    apply List.get?_len_le
    simp only [lnLookup, List.length_cons, List.length_nil]
    omega

/-- Witness for the amended C5 at an in-table and an out-of-table index. -/
theorem ln_lookup_domain_witness :
    lnTable 7 = some ((Real.log (7 : ℕ) : ℝ) : EReal) ∧ lnTable 11 = none :=
  ⟨ln_lookup_domain.2.1 7 (by norm_num) (by norm_num),
   ln_lookup_domain.2.2 11 (by norm_num)⟩

/-! ## Claim C6 -/

theorem take_commonPrefixLength_eq :
    ∀ xs ys : List Char,
      xs.take (commonPrefixLength xs ys) = ys.take (commonPrefixLength xs ys) := by
  intro xs
  induction xs with
  | nil => intro ys; simp [commonPrefixLength]
  | cons a as ih =>
    intro ys
    cases ys with
    | nil => simp [commonPrefixLength]
    | cons b bs =>
      by_cases hab : a = b
      · subst hab
        simp [commonPrefixLength, List.take_succ_cons, ih bs]
      · simp [commonPrefixLength, hab]

theorem commonPrefixLength_le_left :
    ∀ xs ys : List Char, commonPrefixLength xs ys ≤ xs.length := by
  intro xs
  induction xs with
  | nil => intro ys; simp [commonPrefixLength]
  | cons a as ih =>
    intro ys
    cases ys with
    | nil => simp [commonPrefixLength]
    | cons b bs =>
      by_cases hab : a = b
      · simp only [commonPrefixLength, if_pos hab, List.length_cons]
        exact Nat.add_le_add_right (ih bs) 1
      · simp [commonPrefixLength, hab]

theorem le_commonPrefixLength :
    ∀ (q xs ys rs bs : List Char), xs = q ++ rs → ys = q ++ bs →
      q.length ≤ commonPrefixLength xs ys := by
  intro q
  induction q with
  | nil => simp
  | cons x qt ih =>
    intro xs ys rs bs hx hy
    subst hx
    subst hy
    simp only [List.cons_append, commonPrefixLength, if_pos rfl, List.length_cons]
    exact Nat.add_le_add_right (ih (qt ++ rs) (qt ++ bs) rs bs rfl rfl) 1

/-- Claim C6: for every fetched record and every ALT index, exactly one
Variant is emitted per ALT; unequal-length ref/alt pairs are left-trimmed by
their longest common prefix — the emitted ref and alt are the remaining
suffixes, the position advances by the prefix length, and no longer common
prefix exists (hence no right-trimming is performed) — while equal-length
pairs are emitted verbatim at the record position. -/
theorem fetch_variants_left_trim (r : VcfRecord) (i : ℕ) (hi : i < r.alts.length) :
    (fetch_variants_record r).length = r.alts.length ∧
    ((fetch_variants_record r).getD i ⟨"", 0, [], []⟩).chrom = r.chrom ∧
    (r.ref.length = (r.alts.getD i []).length →
      (fetch_variants_record r).getD i ⟨"", 0, [], []⟩ =
        ⟨r.chrom, r.pos, r.ref, r.alts.getD i []⟩) ∧
    (r.ref.length ≠ (r.alts.getD i []).length →
      ∃ p : List Char,
        r.ref = p ++ ((fetch_variants_record r).getD i ⟨"", 0, [], []⟩).ref ∧
        r.alts.getD i [] = p ++ ((fetch_variants_record r).getD i ⟨"", 0, [], []⟩).alt ∧
        ((fetch_variants_record r).getD i ⟨"", 0, [], []⟩).pos = r.pos + p.length ∧
        ∀ q rs bs : List Char, r.ref = q ++ rs → r.alts.getD i [] = q ++ bs →
          q.length ≤ p.length) := by
  have hget : (fetch_variants_record r).getD i ⟨"", 0, [], []⟩ =
      convert_allele r.chrom r.pos r.ref (r.alts.getD i []) := by
    rw [fetch_variants_record, List.getD_eq_getElem?_getD, List.getElem?_map,
      List.getElem?_eq_getElem hi, List.getD_eq_getElem?_getD,
      List.getElem?_eq_getElem hi]
    rfl
  refine ⟨by simp [fetch_variants_record], ?_, ?_, ?_⟩
  · rw [hget, convert_allele]
    split <;> rfl
  · intro hlen
    rw [hget, convert_allele, if_neg (fun hcon => hcon hlen)]
  · intro hlen
    rw [hget, convert_allele, if_pos hlen]
    set alt := r.alts.getD i [] with halt
    set p := commonPrefixLength r.ref alt with hp
    have hplen : (r.ref.take p).length = p := by
      rw [List.length_take]
      exact Nat.min_eq_left (commonPrefixLength_le_left r.ref alt)
    refine ⟨r.ref.take p, ?_, ?_, ?_, ?_⟩
    · exact (List.take_append_drop p r.ref).symm
    · rw [take_commonPrefixLength_eq r.ref alt]
      exact (List.take_append_drop p alt).symm
    · rw [hplen]
    · intro q rs bs hq1 hq2
      rw [hplen]
      exact le_commonPrefixLength q r.ref alt rs bs hq1 hq2

/-- Witness for C6 at the spec scenario: REF "AT", ALT "A" at position 100
emit Variant(101, "T", ""). -/
theorem fetch_variants_left_trim_witness :
    (fetch_variants_record recAT).length = recAT.alts.length ∧
    fetch_variants_record recAT = [⟨"1", 101, ['T'], []⟩] :=
  ⟨(fetch_variants_left_trim recAT 0 (by simp [recAT])).1, rfl⟩

/-! ## Claim C7 -/

/-- Counterexample for C7: REF "ACGT" and ALT "ACGG" have equal lengths, so
`fetch_variants` emits them verbatim at position 100; the output is not the
left-trimmed Variant(103, "T", "G") the claim describes. -/
theorem fetch_variants_acgt_acgg_cex :
    fetch_variants_record recACGT ≠ [⟨"1", 103, ['T'], ['G']⟩] := by
  decide

/-- Claim C7 (amended): the record (pos 100, REF "ACGT", single ALT "ACGG")
makes the generator emit exactly one Variant, verbatim: position 100,
ref "ACGT", alt "ACGG". -/
theorem fetch_variants_acgt_acgg_verbatim :
    fetch_variants_record recACGT =
      [⟨"1", 100, ['A', 'C', 'G', 'T'], ['A', 'C', 'G', 'G']⟩] := rfl

/-! ## Claim C8 -/

/-- Claim C8: `has_ns` (with the spec's corrected semantics — the source call
`std::any_of(begin, end, 'N')` passes a char where a predicate is required
and is ill-formed) returns true exactly when the sequence contains the base
'N', and is defined on every sequence. -/
theorem has_ns_iff_mem (s : List Char) : has_ns s = true ↔ 'N' ∈ s := by
  simp only [has_ns, List.any_eq_true, beq_iff_eq]
  constructor
  · rintro ⟨x, hx, rfl⟩
    exact hx
  · intro hN
    exact ⟨'N', hN, rfl⟩

/-! ## Claim C9 -/

/-- Claim C9: `make_measure` returns a measure exactly for the names
installed in the registry by `init`; every other name throws `UnknownMeasure`
carrying the offending name and the help message, constructing no measure;
and `get_all_measure_names` returns exactly the registered names, sorted and
without duplicates. -/
theorem make_measure_registry_spec (names : List String) (s : String) :
    ((∃ m, make_measure names s = Except.ok m) ↔ s ∈ names) ∧
    (s ∉ names → make_measure names s = Except.error
      ⟨s, "make_measure", s ++ " is not a valid measure",
       "See the documentation for valid measures"⟩) ∧
    (get_all_measure_names names).Sorted (fun a b => a ≤ b) ∧
    (get_all_measure_names names).Nodup ∧
    (∀ t, t ∈ get_all_measure_names names ↔ t ∈ names) := by
  refine ⟨?_, ?_, ?_, ?_, ?_⟩
  · constructor
    · rintro ⟨m, hm⟩
      by_contra hs
      rw [make_measure, if_neg hs] at hm
      cases hm
    · intro hs
      exact ⟨s, by rw [make_measure, if_pos hs]⟩
  · intro hs
    rw [make_measure, if_neg hs]
  · exact List.sorted_insertionSort _ _
  · exact (List.perm_insertionSort _ _).nodup_iff.mpr (List.nodup_dedup names)
  · intro t
    rw [get_all_measure_names, (List.perm_insertionSort _ _).mem_iff]
    exact List.mem_dedup

/-- Witness for C9: an unregistered name raises the `UnknownMeasure` error
with the offending name and help text; a registered name is listed. -/
theorem make_measure_registry_spec_witness :
    make_measure ["alpha"] "beta" = Except.error
      ⟨"beta", "make_measure", "beta is not a valid measure",
       "See the documentation for valid measures"⟩ ∧
    "alpha" ∈ get_all_measure_names ["alpha"] :=
  ⟨(make_measure_registry_spec ["alpha"] "beta").2.1 (by decide),
   ((make_measure_registry_spec ["alpha"] "alpha").2.2.2.2 "alpha").mpr (by decide)⟩

/-! ## Claim C10 -/

theorem reverse_complement_eq_reverse_map :
    ∀ s : List Char, reverse_complement s = (s.map complement).reverse := by
  intro s
  induction s using reverse_complement.induct with
  | case1 => simp [reverse_complement]
  | case2 x => simp [reverse_complement]
  | case3 x y t ih =>
    rw [reverse_complement, ih]
    conv_rhs => rw [show x :: y :: t =
      x :: ((y :: t).dropLast ++ [(y :: t).getLast (by simp)]) by
        rw [List.dropLast_append_getLast]]
    simp

/-- Claim C10: over the upper-case alphabet A, C, G, T, N the two-pointer
`reverse_complement` is a length-preserving involution; it reverses the
sequence while exchanging A with T and C with G and fixing N. -/
theorem reverse_complement_involution (s : List Char) (_hne : s ≠ [])
    (halpha : ∀ c ∈ s, c ∈ (['A', 'C', 'G', 'T', 'N'] : List Char)) :
    reverse_complement (reverse_complement s) = s ∧
    (reverse_complement s).length = s.length ∧
    reverse_complement s = (s.map complement).reverse ∧
    complement 'A' = 'T' ∧ complement 'T' = 'A' ∧
    complement 'C' = 'G' ∧ complement 'G' = 'C' ∧ complement 'N' = 'N' := by
  have hcc : ∀ c ∈ s, complement (complement c) = c := by
    intro c hc
    have hmem := halpha c hc
    simp only [List.mem_cons, List.not_mem_nil, or_false] at hmem
    rcases hmem with rfl | rfl | rfl | rfl | rfl <;> rfl
  refine ⟨?_, ?_, reverse_complement_eq_reverse_map s, rfl, rfl, rfl, rfl, rfl⟩
  · rw [reverse_complement_eq_reverse_map, reverse_complement_eq_reverse_map,
      List.map_reverse, List.reverse_reverse, List.map_map]
    conv_rhs => rw [← List.map_id s]
    exact List.map_congr_left hcc
  · rw [reverse_complement_eq_reverse_map]
    simp

/-- Witness for C10 on the five-letter alphabet sequence itself. -/
theorem reverse_complement_involution_witness :
    reverse_complement (reverse_complement ['A', 'C', 'G', 'T', 'N']) =
      ['A', 'C', 'G', 'T', 'N'] ∧
    reverse_complement ['A', 'C', 'G', 'T', 'N'] = ['N', 'A', 'C', 'G', 'T'] :=
  ⟨(reverse_complement_involution ['A', 'C', 'G', 'T', 'N']
      (by decide) (by decide)).1,
   by rw [reverse_complement_eq_reverse_map]; decide⟩

end Octopus
